import Mathlib

/-!
Shallow embedding of the loki-mcp-server core (`src/loki_client.py` and the
`get_pod_logs` tool of `src/server.py`): query construction, range-query
parameter conversion, response parsing, and the three analyzers
(`get_error_summary`, `get_pod_restarts`, `search_logs`), together with
theorems settling the specification claims about them.

Conventions of the embedding:
* Python strings are Lean `String`s; slicing `s[:n]` is `truncStr n s`,
  substring tests `tok in msg` are `msgContains`.
* The decoded JSON response is modelled structurally with `Option` fields for
  every `.get(..., default)` access performed by the source.
* Python `datetime` instants are exact rationals (seconds since the Unix
  epoch); `datetime.timestamp()` is the identity on that representation and
  `int(...)` is truncation toward zero (`pyInt`).
* A Python `dict` (insertion-ordered) is an association list with unique keys,
  updated in place; `collections.Counter` is such a list of counts
  (`incAList` / `mostCommon` for `Counter.__getitem__ += 1` /
  `Counter.most_common`).
* Exceptions (`ValueError` from `int(...)`, `AttributeError` from attribute
  lookup) are `Except` errors; the analyzers compose with `Except.map`, which
  is exactly "no catch, propagate unchanged".
-/

namespace LokiMCP

instance {ε α : Type _} [DecidableEq ε] [DecidableEq α] : DecidableEq (Except ε α) := fun a b =>
  match a, b with
  | .ok x, .ok y => decidable_of_iff (x = y) (by simp)
  | .error x, .error y => decidable_of_iff (x = y) (by simp)
  | .ok _, .error _ => .isFalse (by simp)
  | .error _, .ok _ => .isFalse (by simp)

/-! ## String utilities -/

/-- Python slicing `s[:n]`: the first `n` characters of `s`. -/
def truncStr (n : Nat) (s : String) : String :=
  ⟨s.data.take n⟩

/-- `tok` occurs as a contiguous run at the start of `l`. -/
def prefAt : List Char → List Char → Bool
  | [], _ => true
  | _ :: _, [] => false
  | a :: as, b :: bs => a == b && prefAt as bs

/-- `tok` occurs as a contiguous substring of `l` (Python `tok in l`). -/
def containsSub (tok : List Char) : List Char → Bool
  | [] => prefAt tok []
  | c :: rest => prefAt tok (c :: rest) || containsSub tok rest

/-- Python `tok in msg` on strings. -/
def msgContains (msg tok : String) : Bool :=
  containsSub tok.data msg.data

/-- Python `labels.get(k, d)` on a string-keyed dict. -/
def getLabel (labels : List (String × String)) (k d : String) : String :=
  (labels.lookup k).getD d

/-! ## Data model: the decoded `query_range` response

The wire shape is `{"data": {"result": [{"stream": {...}, "values":
[[ts, line], ...]}, ...]}}`; each field the source accesses with a
defaulted `.get` is an `Option` here. -/

/-- A label set: string keys to string values, keys unique. -/
abbrev LabelSet := List (String × String)

/-- One stream of the response: optional `"stream"` label object and optional
`"values"` list of `[timestamp_ns_string, line]` pairs. -/
structure RawStream where
  labels? : Option LabelSet
  values? : Option (List (String × String))
  deriving DecidableEq

/-- The optional `"data"` object, holding an optional `"result"` list. -/
structure RawData where
  result? : Option (List RawStream)
  deriving DecidableEq

/-- The decoded top-level response object. -/
structure RawResp where
  data? : Option RawData
  deriving DecidableEq

/-- A parsed log entry: `{"timestamp": ..., "message": ..., "labels": ...}`.
The timestamp is the exact instant `ns / 10^9` seconds since the epoch. -/
structure LogEntry where
  timestamp : ℚ
  message : String
  labels : LabelSet
  deriving DecidableEq

/-! ## Parsing (`LokiClient.parse_log_entries`) -/

/-- Python `int(s)` on a string: optional sign followed by one or more
digits; anything else raises `ValueError` (modelled as `none`). -/
def parseInt? (s : String) : Option Int :=
  let digits : List Char → Option Nat := fun l =>
    if l.isEmpty then none
    else l.foldlM (fun acc c =>
      if c.isDigit then some (acc * 10 + (c.toNat - 48)) else none) 0
  match s.data with
  | '-' :: rest => (digits rest).map (fun n => -(n : Int))
  | '+' :: rest => (digits rest).map (fun n => (n : Int))
  | l => (digits l).map (fun n => (n : Int))

/-- The entry built for one `[timestamp_ns, line]` pair: timestamp is
`datetime.fromtimestamp(ns / 1_000_000_000)`, i.e. the instant `ns / 10^9`. -/
def mkEntry (ns : Int) (line : String) (labels : LabelSet) : LogEntry :=
  { timestamp := (ns : ℚ) / 1000000000, message := line, labels := labels }

/-- The inner loop of `parse_log_entries` over one stream's `values` list:
each pair yields an entry carrying the stream's labels; a non-numeric
timestamp raises (aborts the whole call, nothing partial is kept). -/
def parseValues (labels : LabelSet) : List (String × String) → Except String (List LogEntry)
  | [] => .ok []
  | (ts, line) :: rest =>
    match parseInt? ts with
    | none => .error ("invalid literal for int(): " ++ ts)
    | some n => (parseValues labels rest).map (fun es => mkEntry n line labels :: es)

/-- One stream's contribution: `stream.get("stream", {})` labels attached to
every pair of `stream.get("values", [])`. -/
def parseStream (s : RawStream) : Except String (List LogEntry) :=
  parseValues (s.labels?.getD []) (s.values?.getD [])

/-- The outer loop of `parse_log_entries` over the stream list. -/
def parseStreams : List RawStream → Except String (List LogEntry)
  | [] => .ok []
  | s :: rest => do
    let es ← parseStream s
    let tail ← parseStreams rest
    .ok (es ++ tail)

/-- `result.get("data", {}).get("result", [])`. -/
def streamsOf (r : RawResp) : List RawStream :=
  (r.data?.bind (·.result?)).getD []

/-- `LokiClient.parse_log_entries`: flatten the response into entries, or
raise on the first malformed timestamp. -/
def parse_log_entries (r : RawResp) : Except String (List LogEntry) :=
  parseStreams (streamsOf r)

/-! ## Query construction

The LogQL strings built by `get_error_summary`, `get_pod_restarts` and
`search_logs` (f-string interpolation, a nonempty `namespace` argument is
truthy). No escaping of the interpolated values is performed by the source. -/

/-- The query built by `get_error_summary`. -/
def errorSummaryQuery (ns : String) : String :=
  if ns ≠ "" then
    "\x7bnamespace=\"" ++ ns ++ "\"\x7d |= \"ERROR\" or |= \"PANIC\" or |= \"FATAL\""
  else
    "|= \"ERROR\" or |= \"PANIC\" or |= \"FATAL\""

/-- The query built by `get_pod_restarts`. -/
def podRestartsQuery (ns : String) : String :=
  if ns ≠ "" then
    "\x7bnamespace=\"" ++ ns ++ "\"\x7d |= \"restart\" or |= \"CrashLoopBackOff\" or |= \"OOMKilled\""
  else
    "|= \"restart\" or |= \"CrashLoopBackOff\" or |= \"OOMKilled\""

/-- The query built by `search_logs` from the caller's pattern. -/
def searchQuery (ns pattern : String) : String :=
  if ns ≠ "" then
    "\x7bnamespace=\"" ++ ns ++ "\"\x7d |~ \"" ++ pattern ++ "\""
  else
    "|~ \"" ++ pattern ++ "\""

/-- Reader state machine for a quoted LogQL string literal; the `Bool` is
true when the previous character was an unconsumed escaping backslash, in
which case the next character is taken literally. -/
def readQuotedAux : Bool → List Char → Option (List Char × List Char)
  | _, [] => none
  | true, c :: rest => (readQuotedAux false rest).map (fun p => (c :: p.1, p.2))
  | false, c :: rest =>
    if c = '"' then some ([], rest)
    else if c = '\\' then readQuotedAux true rest
    else (readQuotedAux false rest).map (fun p => (c :: p.1, p.2))

/-- How a LogQL consumer reads a quoted string literal, starting just after
the opening quote: characters up to the first unescaped `"` form the value
(with `\\c` read as `c`); returns the value and the rest of the input. -/
def readQuoted (l : List Char) : Option (List Char × List Char) :=
  readQuotedAux false l

/-- Drop an expected leading run of characters, or fail. -/
def dropPre : List Char → List Char → Option (List Char)
  | [], l => some l
  | _ :: _, [] => none
  | a :: as, b :: bs => if a = b then dropPre as bs else none

/-- The value a LogQL consumer reads for the `namespace` label selector of a
built query: skip `{namespace="` then read the quoted literal. -/
def selectorValue (q : String) : Option String :=
  (dropPre "\x7bnamespace=\"".data q.data).bind
    (fun rest => (readQuoted rest).map (fun p => String.mk p.1))

/-- The value a LogQL consumer reads for the `|~ "..."` line-filter of a
query with no namespace part. -/
def lineFilterValue (q : String) : Option String :=
  (dropPre "|~ \"".data q.data).bind
    (fun rest => (readQuoted rest).map (fun p => String.mk p.1))

/-- The escaping the specification requires before interpolating a value into
a quoted LogQL literal: prefix each backslash and double quote with a
backslash. (Absent from the source; used to show the contract is the intent
and is satisfiable.) -/
def escapeChars : List Char → List Char
  | [] => []
  | c :: rest =>
    if c = '\\' ∨ c = '"' then '\\' :: c :: escapeChars rest
    else c :: escapeChars rest

/-- `escapeChars` on strings. -/
def escapeLogql (s : String) : String :=
  ⟨escapeChars s.data⟩

/-! ## `LokiClient.query_range` parameter construction -/

/-- Python `int()` on an exact rational: truncation toward zero. -/
def pyInt (q : ℚ) : Int :=
  if 0 ≤ q then ⌊q⌋ else ⌈q⌉

/-- The request parameters `query_range` sends to
`/loki/api/v1/query_range`. -/
structure QueryParams where
  query : String
  start : Int
  end_ : Int
  limit : Nat
  deriving DecidableEq

/-- `LokiClient.query_range`'s parameter construction: default
`start = now - 1h`, `end = now`, then `int(t.timestamp()) * 1_000_000_000`
for each bound. `now` is the instant of the call, in seconds since epoch. -/
def query_range_params (query : String) (start? end? : Option ℚ) (limit : Nat)
    (now : ℚ) : QueryParams :=
  let start := start?.getD (now - 3600)
  let e := end?.getD now
  { query := query
    start := pyInt start * 1000000000
    end_ := pyInt e * 1000000000
    limit := limit }

/-! ## Analyzer reducers

Each analyzer's reduction over the parsed entry list, with Python dicts and
`Counter`s as insertion-ordered association lists. -/

/-- `Counter[k] += 1`: increment in place, or append `(k, 1)` if absent. -/
def incAList (k : String) : List (String × Nat) → List (String × Nat)
  | [] => [(k, 1)]
  | (k', n) :: rest =>
    if k' = k then (k', n + 1) :: rest else (k', n) :: incAList k rest

/-- Stable insertion for descending-count order: the new pair goes after
every existing pair of count ≥ its own (Python `sorted` stability). -/
def insertDesc (p : String × Nat) : List (String × Nat) → List (String × Nat)
  | [] => [p]
  | q :: rest => if q.2 < p.2 then p :: q :: rest else q :: insertDesc p rest

/-- `Counter.most_common()`: the items stably sorted by descending count. -/
def mostCommon (l : List (String × Nat)) : List (String × Nat) :=
  l.foldl (fun acc p => insertDesc p acc) []

/-- Total count recorded for key `k` (order- and duplication-insensitive). -/
def keyCount (l : List (String × Nat)) (k : String) : Nat :=
  ((l.filter (fun p => p.1 = k)).map Prod.snd).sum

/-- The pod a log entry is attributed to: `labels.get("pod_name", "unknown")`. -/
def podOf (e : LogEntry) : String :=
  getLabel e.labels "pod_name" "unknown"

/-- Loop state of `get_error_summary`: the `error_types` counter, the
`error_messages` sample list, the `affected_pods` set in insertion order. -/
structure ESState where
  error_types : List (String × Nat)
  error_messages : List String
  affected_pods : List String
  deriving DecidableEq

/-- One iteration of `get_error_summary`'s loop over an entry. -/
def esStep (st : ESState) (e : LogEntry) : ESState :=
  let pod := podOf e
  let pods := if pod ∈ st.affected_pods then st.affected_pods
              else st.affected_pods ++ [pod]
  let t1 := if msgContains e.message "ERROR" then incAList "ERROR" st.error_types
            else st.error_types
  let t2 := if msgContains e.message "PANIC" then incAList "PANIC" t1 else t1
  let t3 := if msgContains e.message "FATAL" then incAList "FATAL" t2 else t2
  let msgs := if st.error_messages.length < 10 then
                st.error_messages ++ [truncStr 200 e.message]
              else st.error_messages
  { error_types := t3, error_messages := msgs, affected_pods := pods }

/-- The result record of `get_error_summary` (analysis fields). -/
structure ErrorSummary where
  total_errors : Nat
  error_breakdown : List (String × Nat)
  affected_pods : List String
  sample_errors : List String
  deriving DecidableEq

/-- `get_error_summary`'s reduction of the parsed entries. -/
def errorSummaryOf (entries : List LogEntry) : ErrorSummary :=
  let st := entries.foldl esStep ⟨[], [], []⟩
  { total_errors := entries.length
    error_breakdown := mostCommon st.error_types
    affected_pods := st.affected_pods
    sample_errors := st.error_messages }

/-- Loop state of `get_pod_restarts`: `restarts_by_pod` counter and
`restart_reasons` dict. -/
structure PRState where
  restarts_by_pod : List (String × Nat)
  restart_reasons : List (String × String)
  deriving DecidableEq

/-- One iteration of `get_pod_restarts`'s loop over an entry. -/
def prStep (st : PRState) (e : LogEntry) : PRState :=
  let pod := podOf e
  let reasons := if (st.restart_reasons.lookup pod).isSome then st.restart_reasons
                 else st.restart_reasons ++ [(pod, truncStr 200 e.message)]
  { restarts_by_pod := incAList pod st.restarts_by_pod
    restart_reasons := reasons }

/-- The result record of `get_pod_restarts` (analysis fields). -/
structure RestartSummary where
  total_restart_events : Nat
  affected_pods : List (String × Nat)
  restart_reasons : List (String × String)
  deriving DecidableEq

/-- `get_pod_restarts`'s reduction: `most_common(10)` for the pod table,
first-sighting reasons. -/
def podRestartsOf (entries : List LogEntry) : RestartSummary :=
  let st := entries.foldl prStep ⟨[], []⟩
  { total_restart_events := entries.length
    affected_pods := (mostCommon st.restarts_by_pod).take 10
    restart_reasons := st.restart_reasons }

/-- `search_logs` group insertion: `if pod not in d: d[pod] = []` then
`d[pod].append(item)`, on an insertion-ordered dict. -/
def addToGroup (k : String) (v : ℚ × String) :
    List (String × List (ℚ × String)) → List (String × List (ℚ × String))
  | [] => [(k, [v])]
  | (k', vs) :: rest =>
    if k' = k then (k', vs ++ [v]) :: rest else (k', vs) :: addToGroup k v rest

/-- The result record of `search_logs` (analysis fields); each kept item is
the entry's timestamp and its message truncated to 300 characters. -/
structure SearchResult where
  query : String
  total_matches : Nat
  logs_by_pod : List (String × List (ℚ × String))
  deriving DecidableEq

/-- The display item `search_logs` keeps for an entry: its timestamp and its
message truncated to 300 characters. -/
def searchItem (e : LogEntry) : ℚ × String :=
  (e.timestamp, truncStr 300 e.message)

/-- `search_logs`'s reduction of the parsed entries. -/
def searchLogsOf (pattern : String) (entries : List LogEntry) : SearchResult :=
  { query := pattern
    total_matches := entries.length
    logs_by_pod := entries.foldl
      (fun acc e => addToGroup (podOf e) (searchItem e) acc) [] }

/-! ## Analyzer entry points over a raw response

Each analyzer parses and then reduces; a parse failure is not caught and
propagates unchanged (`Except.map`). -/

/-- `get_error_summary` from the raw response onward. -/
def errorSummaryRun (r : RawResp) : Except String ErrorSummary :=
  (parse_log_entries r).map errorSummaryOf

/-- `get_pod_restarts` from the raw response onward. -/
def podRestartsRun (r : RawResp) : Except String RestartSummary :=
  (parse_log_entries r).map podRestartsOf

/-- `search_logs` from the raw response onward. -/
def searchLogsRun (pattern : String) (r : RawResp) : Except String SearchResult :=
  (parse_log_entries r).map (searchLogsOf pattern)

/-! ## The `get_pod_logs` tool of `src/server.py` -/

/-- The method names the `LokiClient` class defines (its full class body). -/
def lokiClientMethods : List String :=
  ["__init__", "query_range", "get_labels", "get_namespaces",
   "get_pods_in_namespace", "parse_log_entries", "extract_error_level",
   "get_error_summary", "get_pod_restarts", "search_logs"]

/-- A Python exception relevant to the tool bodies. -/
inductive PyErr where
  | attributeError (name : String)
  deriving DecidableEq

/-- Attribute lookup `loki.<name>` on an initialized client: raises
`AttributeError` when the class defines no such method. -/
def resolveAttr (name : String) : Except PyErr Unit :=
  if name ∈ lokiClientMethods then .ok () else .error (.attributeError name)

/-- The body of the `get_pod_logs` tool after the `loki is None` guard, for
an initialized client: both branches first resolve
`loki._escape_logql_string` before building any query. The returned list
records the LogQL queries issued to `query_range` before the outcome; the
success continuation cannot be derived from the source (the escape helper
does not exist anywhere), so it is modelled as issuing the f-string query
with the attribute's (nonexistent) result replaced by the raw inputs. -/
def get_pod_logs_run (pod_name ns : String) : Except PyErr Unit × List String :=
  match resolveAttr "_escape_logql_string" with
  | .error e => (.error e, [])
  | .ok _ =>
    let q := if ns ≠ "" then
        "\x7bpod_name=~\"" ++ pod_name ++ "\",namespace=\"" ++ ns ++ "\"\x7d"
      else
        "\x7bpod_name=~\"" ++ pod_name ++ "\"\x7d"
    (.ok (), [q])

/-! ## Helper lemmas: counters and stable descending sort -/

theorem keyCount_nil (k : String) : keyCount [] k = 0 := rfl

theorem keyCount_cons (k' : String) (n : Nat) (rest : List (String × Nat)) (k : String) :
    keyCount ((k', n) :: rest) k = (if k' = k then n else 0) + keyCount rest k := by
  by_cases h : k' = k <;> simp [keyCount, List.filter_cons, h]

theorem keyCount_incAList_self (l : List (String × Nat)) (k : String) :
    keyCount (incAList k l) k = keyCount l k + 1 := by
  induction l with
  | nil => simp [incAList, keyCount_cons, keyCount_nil]
  | cons p rest ih =>
    obtain ⟨k', n⟩ := p
    by_cases h : k' = k
    · subst h
      simp [incAList, keyCount_cons]
      omega
    · simp [incAList, h, keyCount_cons, ih]

theorem keyCount_incAList_ne (l : List (String × Nat)) (k k' : String) (h : k' ≠ k) :
    keyCount (incAList k' l) k = keyCount l k := by
  induction l with
  | nil => simp [incAList, keyCount_cons, keyCount_nil, h]
  | cons p rest ih =>
    obtain ⟨k'', n⟩ := p
    by_cases h2 : k'' = k'
    · subst h2
      simp [incAList, keyCount_cons, h]
    · simp [incAList, h2, keyCount_cons, ih]

theorem insertDesc_perm (p : String × Nat) (l : List (String × Nat)) :
    (insertDesc p l).Perm (p :: l) := by
  induction l with
  | nil => simp [insertDesc]
  | cons q rest ih =>
    by_cases h : q.2 < p.2
    · simp [insertDesc, h]
    · simp only [insertDesc, if_neg h]
      exact (ih.cons q).trans (List.Perm.swap p q rest)

theorem mostCommon_perm (l : List (String × Nat)) : (mostCommon l).Perm l := by
  suffices h : ∀ acc : List (String × Nat),
      (l.foldl (fun acc p => insertDesc p acc) acc).Perm (l ++ acc) by
    simpa using h []
  induction l with
  | nil => simp
  | cons p rest ih =>
    intro acc
    simp only [List.foldl_cons]
    refine (ih (insertDesc p acc)).trans ?_
    have h1 : (rest ++ insertDesc p acc).Perm (rest ++ (p :: acc)) :=
      List.Perm.append_left rest (insertDesc_perm p acc)
    exact h1.trans List.perm_middle

theorem keyCount_eq_of_perm {l l' : List (String × Nat)} (h : l.Perm l') (k : String) :
    keyCount l k = keyCount l' k := by
  unfold keyCount
  exact ((h.filter _).map Prod.snd).sum_eq

theorem keyCount_mostCommon (l : List (String × Nat)) (k : String) :
    keyCount (mostCommon l) k = keyCount l k :=
  keyCount_eq_of_perm (mostCommon_perm l) k

theorem mem_insertDesc {x p : String × Nat} {l : List (String × Nat)}
    (h : x ∈ insertDesc p l) : x = p ∨ x ∈ l := by
  have := (insertDesc_perm p l).mem_iff.mp h
  simpa using this

theorem insertDesc_sorted (p : String × Nat) (l : List (String × Nat))
    (h : l.Pairwise (fun a b => b.2 ≤ a.2)) :
    (insertDesc p l).Pairwise (fun a b => b.2 ≤ a.2) := by
  induction l with
  | nil => simp [insertDesc]
  | cons q rest ih =>
    rcases List.pairwise_cons.mp h with ⟨hq, hrest⟩
    by_cases hlt : q.2 < p.2
    · simp only [insertDesc, if_pos hlt]
      refine List.pairwise_cons.mpr ⟨?_, h⟩
      intro x hx
      rcases List.mem_cons.mp hx with rfl | hx
      · exact Nat.le_of_lt hlt
      · exact Nat.le_trans (hq x hx) (Nat.le_of_lt hlt)
    · simp only [insertDesc, if_neg hlt]
      refine List.pairwise_cons.mpr ⟨?_, ih hrest⟩
      intro x hx
      rcases mem_insertDesc hx with rfl | hx
      · exact Nat.le_of_not_lt hlt
      · exact hq x hx

theorem mostCommon_sorted (l : List (String × Nat)) :
    (mostCommon l).Pairwise (fun a b => b.2 ≤ a.2) := by
  suffices h : ∀ acc : List (String × Nat),
      acc.Pairwise (fun a b => b.2 ≤ a.2) →
      (l.foldl (fun acc p => insertDesc p acc) acc).Pairwise (fun a b => b.2 ≤ a.2) by
    exact h [] (by simp)
  induction l with
  | nil => intro acc hacc; simpa using hacc
  | cons p rest ih =>
    intro acc hacc
    simp only [List.foldl_cons]
    exact ih _ (insertDesc_sorted p acc hacc)

/-! ## Helper lemmas: `get_error_summary`'s loop -/

theorem keyCount_esStep (st : ESState) (e : LogEntry) (tok : String)
    (h : tok ∈ (["ERROR", "PANIC", "FATAL"] : List String)) :
    keyCount (esStep st e).error_types tok =
      keyCount st.error_types tok + (if msgContains e.message tok then 1 else 0) := by
  have hne1 : ("ERROR" : String) ≠ "PANIC" := by decide
  have hne2 : ("ERROR" : String) ≠ "FATAL" := by decide
  have hne3 : ("PANIC" : String) ≠ "FATAL" := by decide
  simp only [List.mem_cons, List.not_mem_nil, or_false] at h
  rcases h with rfl | rfl | rfl <;>
    · simp only [esStep]
      by_cases h1 : msgContains e.message "ERROR" <;>
        by_cases h2 : msgContains e.message "PANIC" <;>
          by_cases h3 : msgContains e.message "FATAL" <;>
            simp [h1, h2, h3, keyCount_incAList_self, keyCount_incAList_ne,
              hne1, hne2, hne3, hne1.symm, hne2.symm, hne3.symm]

theorem keyCount_esFold (entries : List LogEntry) (st : ESState) (tok : String)
    (h : tok ∈ (["ERROR", "PANIC", "FATAL"] : List String)) :
    keyCount (entries.foldl esStep st).error_types tok =
      keyCount st.error_types tok +
        (entries.filter (fun e => msgContains e.message tok)).length := by
  induction entries generalizing st with
  | nil => simp
  | cons e rest ih =>
    simp only [List.foldl_cons, List.filter_cons]
    rw [ih (esStep st e), keyCount_esStep st e tok h]
    by_cases hc : msgContains e.message tok <;> simp [hc] <;> omega

theorem msgs_esStep (st : ESState) (e : LogEntry) :
    (esStep st e).error_messages =
      if st.error_messages.length < 10 then
        st.error_messages ++ [truncStr 200 e.message]
      else st.error_messages := rfl

theorem msgs_esFold (entries : List LogEntry) (st : ESState) :
    (entries.foldl esStep st).error_messages =
      st.error_messages ++
        (entries.map (fun e => truncStr 200 e.message)).take
          (10 - st.error_messages.length) := by
  induction entries generalizing st with
  | nil => simp
  | cons e rest ih =>
    simp only [List.foldl_cons, List.map_cons]
    rw [ih (esStep st e), msgs_esStep]
    by_cases h : st.error_messages.length < 10
    · have h10 : 10 - st.error_messages.length = (10 - (st.error_messages.length + 1)) + 1 := by
        omega
      simp only [if_pos h, List.length_append, List.length_cons, List.length_nil]
      rw [h10, List.take_succ_cons, List.append_assoc]
      simp
    · have h10 : 10 - st.error_messages.length = 0 := by omega
      simp [if_neg h, h10]

theorem pods_esStep (st : ESState) (e : LogEntry) (p : String) :
    p ∈ (esStep st e).affected_pods ↔ p ∈ st.affected_pods ∨ p = podOf e := by
  simp only [esStep]
  by_cases h : podOf e ∈ st.affected_pods
  · simp only [if_pos h]
    constructor
    · exact fun hp => Or.inl hp
    · rintro (hp | rfl)
      · exact hp
      · exact h
  · simp [if_neg h, or_comm]

theorem pods_esFold (entries : List LogEntry) (st : ESState) (p : String) :
    p ∈ (entries.foldl esStep st).affected_pods ↔
      p ∈ st.affected_pods ∨ ∃ e ∈ entries, podOf e = p := by
  induction entries generalizing st with
  | nil => simp
  | cons e rest ih =>
    simp only [List.foldl_cons]
    rw [ih (esStep st e)]
    rw [pods_esStep]
    constructor
    · rintro ((hp | rfl) | ⟨e', he', rfl⟩)
      · exact Or.inl hp
      · exact Or.inr ⟨e, by simp⟩
      · exact Or.inr ⟨e', by simp [he']⟩
    · rintro (hp | ⟨e', he', rfl⟩)
      · exact Or.inl (Or.inl hp)
      · rcases List.mem_cons.mp he' with rfl | he'
        · exact Or.inl (Or.inr rfl)
        · exact Or.inr ⟨e', he', rfl⟩

/-! ## Helper lemmas: `get_pod_restarts`'s loop -/

theorem lookup_append_single {β : Type _} (l : List (String × β)) (k k' : String) (v : β) :
    (l ++ [(k, v)]).lookup k' =
      match l.lookup k' with
      | some w => some w
      | none => if k' = k then some v else none := by
  induction l with
  | nil =>
    by_cases h : k' = k
    · subst h
      simp [List.lookup]
    · have hbeq : (k' == k) = false := by simp [h]
      simp [List.lookup, hbeq, h]
  | cons p rest ih =>
    obtain ⟨k'', v''⟩ := p
    by_cases h : k' = k''
    · subst h
      simp [List.lookup]
    · have hbeq : (k' == k'') = false := by simp [h]
      simp [List.lookup, hbeq, ih]

theorem reasons_prStep (st : PRState) (e : LogEntry) (p : String) :
    (prStep st e).restart_reasons.lookup p =
      match st.restart_reasons.lookup p with
      | some w => some w
      | none => if p = podOf e then some (truncStr 200 e.message) else none := by
  have hre : (prStep st e).restart_reasons =
      if (st.restart_reasons.lookup (podOf e)).isSome then st.restart_reasons
      else st.restart_reasons ++ [(podOf e, truncStr 200 e.message)] := rfl
  rw [hre]
  by_cases h : (st.restart_reasons.lookup (podOf e)).isSome = true
  · rw [if_pos h]
    cases hl : st.restart_reasons.lookup p with
    | some w' => simp
    | none =>
      by_cases hp : p = podOf e
      · subst hp
        rw [hl] at h
        simp at h
      · simp [hp]
  · rw [if_neg h, lookup_append_single]
    cases hl : st.restart_reasons.lookup p <;> simp [hl]

theorem reasons_prFold (entries : List LogEntry) (st : PRState) (p : String) :
    (entries.foldl prStep st).restart_reasons.lookup p =
      match st.restart_reasons.lookup p with
      | some w => some w
      | none =>
        ((entries.filter (fun e => podOf e = p)).head?).map
          (fun e => truncStr 200 e.message) := by
  induction entries generalizing st with
  | nil =>
    simp only [List.foldl_nil, List.filter_nil, List.head?_nil]
    cases hl : st.restart_reasons.lookup p <;> simp [hl]
  | cons e rest ih =>
    simp only [List.foldl_cons, List.filter_cons]
    rw [ih (prStep st e), reasons_prStep]
    cases hl : st.restart_reasons.lookup p with
    | some w => simp
    | none =>
      by_cases hp : podOf e = p
      · subst hp
        simp
      · have hp' : ¬ p = podOf e := fun hh => hp hh.symm
        simp [hp, hp']

theorem counts_prStep (st : PRState) (e : LogEntry) (p : String) :
    keyCount (prStep st e).restarts_by_pod p =
      keyCount st.restarts_by_pod p + (if podOf e = p then 1 else 0) := by
  simp only [prStep]
  by_cases h : podOf e = p
  · subst h
    simp [keyCount_incAList_self]
  · simp [h, keyCount_incAList_ne _ _ _ h]

theorem counts_prFold (entries : List LogEntry) (st : PRState) (p : String) :
    keyCount (entries.foldl prStep st).restarts_by_pod p =
      keyCount st.restarts_by_pod p +
        (entries.filter (fun e => podOf e = p)).length := by
  induction entries generalizing st with
  | nil => simp
  | cons e rest ih =>
    simp only [List.foldl_cons, List.filter_cons]
    rw [ih (prStep st e), counts_prStep]
    by_cases hc : podOf e = p <;> simp [hc] <;> omega

/-! ## Helper lemmas: `search_logs`'s grouping loop -/

/-- The items `search_logs` keeps for pod `p`, in parsed order. -/
def searchItems (entries : List LogEntry) (p : String) : List (ℚ × String) :=
  (entries.filter (fun e => podOf e = p)).map searchItem

/-- First-occurrence order of the pods of a parsed entry list (the
specification's "first-seen pod order"). -/
def firstSeenPods (entries : List LogEntry) : List String :=
  entries.foldl (fun ks e => if podOf e ∈ ks then ks else ks ++ [podOf e]) []

theorem keys_addToGroup (k : String) (v : ℚ × String)
    (l : List (String × List (ℚ × String))) :
    (addToGroup k v l).map Prod.fst =
      if k ∈ l.map Prod.fst then l.map Prod.fst else l.map Prod.fst ++ [k] := by
  induction l with
  | nil => simp [addToGroup]
  | cons p rest ih =>
    obtain ⟨k', vs⟩ := p
    by_cases h : k' = k
    · subst h
      simp [addToGroup]
    · have h' : k ≠ k' := fun hh => h hh.symm
      simp only [addToGroup, if_neg h, List.map_cons, ih]
      by_cases h2 : k ∈ rest.map Prod.fst <;> simp [h2, h']

theorem lookup_addToGroup_self (k : String) (v : ℚ × String)
    (l : List (String × List (ℚ × String))) :
    (addToGroup k v l).lookup k = some ((l.lookup k).getD [] ++ [v]) := by
  induction l with
  | nil => simp [addToGroup, List.lookup]
  | cons p rest ih =>
    obtain ⟨k', vs⟩ := p
    by_cases h : k' = k
    · subst h
      simp [addToGroup, List.lookup]
    · have hne : k ≠ k' := fun hh => h hh.symm
      have hbeq : (k == k') = false := by simp [hne]
      simp [addToGroup, h, List.lookup, hbeq, ih]

theorem lookup_addToGroup_ne (k k' : String) (v : ℚ × String)
    (l : List (String × List (ℚ × String))) (h : k' ≠ k) :
    (addToGroup k v l).lookup k' = l.lookup k' := by
  induction l with
  | nil =>
    have hbeq : (k' == k) = false := by simp [h]
    simp [addToGroup, List.lookup, hbeq]
  | cons p rest ih =>
    obtain ⟨k'', vs⟩ := p
    by_cases h2 : k'' = k
    · subst h2
      have hbeq : (k' == k'') = false := by simp [h]
      simp [addToGroup, List.lookup, hbeq]
    · by_cases h3 : k' = k''
      · subst h3
        simp [addToGroup, h2, List.lookup]
      · have hbeq : (k' == k'') = false := by simp [h3]
        simp [addToGroup, h2, List.lookup, hbeq, ih]

theorem lookup_searchFold (entries : List LogEntry)
    (acc : List (String × List (ℚ × String))) (p : String) :
    (entries.foldl (fun acc e => addToGroup (podOf e) (searchItem e) acc) acc).lookup p =
      match acc.lookup p with
      | some vs => some (vs ++ searchItems entries p)
      | none => if searchItems entries p = [] then none else some (searchItems entries p) := by
  induction entries generalizing acc with
  | nil =>
    simp only [List.foldl_nil]
    cases hacc : acc.lookup p <;> simp [searchItems]
  | cons e rest ih =>
    simp only [List.foldl_cons]
    rw [ih (addToGroup (podOf e) (searchItem e) acc)]
    by_cases hp : podOf e = p
    · subst hp
      rw [lookup_addToGroup_self]
      have hitems : searchItems (e :: rest) (podOf e) =
          searchItem e :: searchItems rest (podOf e) := by
        simp [searchItems, List.filter_cons]
      rw [hitems]
      cases hacc : acc.lookup (podOf e) <;> simp [hacc]
    · rw [lookup_addToGroup_ne _ _ _ _ (fun h => hp h.symm)]
      have hitems : searchItems (e :: rest) p = searchItems rest p := by
        simp [searchItems, List.filter_cons, hp]
      rw [hitems]

theorem keys_searchFold (entries : List LogEntry)
    (acc : List (String × List (ℚ × String))) :
    (entries.foldl (fun acc e => addToGroup (podOf e) (searchItem e) acc) acc).map Prod.fst =
      entries.foldl (fun ks e => if podOf e ∈ ks then ks else ks ++ [podOf e])
        (acc.map Prod.fst) := by
  induction entries generalizing acc with
  | nil => simp
  | cons e rest ih =>
    simp only [List.foldl_cons]
    rw [ih (addToGroup (podOf e) (searchItem e) acc), keys_addToGroup]

/-! ## Helper lemmas: `parse_log_entries` -/

theorem parseValues_ok_of_wf (labels : LabelSet) (vs : List (String × String))
    (h : ∀ p ∈ vs, (parseInt? p.1).isSome) :
    parseValues labels vs =
      .ok (vs.map (fun p => mkEntry ((parseInt? p.1).getD 0) p.2 labels)) := by
  induction vs with
  | nil => rfl
  | cons p rest ih =>
    obtain ⟨ts, line⟩ := p
    have hts : (parseInt? ts).isSome := h (ts, line) (by simp)
    rcases Option.isSome_iff_exists.mp hts with ⟨n, hn⟩
    have hrest : ∀ q ∈ rest, (parseInt? q.1).isSome := fun q hq => h q (by simp [hq])
    simp only [parseValues, hn, ih hrest, Except.map, List.map_cons]
    simp [hn]

theorem parseValues_wf_of_ok (labels : LabelSet) (vs : List (String × String))
    (es : List LogEntry) (h : parseValues labels vs = .ok es) :
    ∀ p ∈ vs, (parseInt? p.1).isSome := by
  induction vs generalizing es with
  | nil => simp
  | cons p rest ih =>
    obtain ⟨ts, line⟩ := p
    intro q hq
    cases hn : parseInt? ts with
    | none => simp [parseValues, hn] at h
    | some n =>
      simp only [parseValues, hn] at h
      cases hrest : parseValues labels rest with
      | error msg => rw [hrest] at h; simp [Except.map] at h
      | ok es' =>
        rcases List.mem_cons.mp hq with rfl | hq
        · simp [hn]
        · exact ih es' hrest q hq

theorem parseValues_labels (labels : LabelSet) (vs : List (String × String))
    (es : List LogEntry) (h : parseValues labels vs = .ok es) :
    ∀ e ∈ es, e.labels = labels := by
  induction vs generalizing es with
  | nil =>
    simp only [parseValues] at h
    cases h
    simp
  | cons p rest ih =>
    obtain ⟨ts, line⟩ := p
    cases hn : parseInt? ts with
    | none => simp [parseValues, hn] at h
    | some n =>
      simp only [parseValues, hn] at h
      cases hrest : parseValues labels rest with
      | error msg => rw [hrest] at h; simp [Except.map] at h
      | ok es' =>
        rw [hrest] at h
        simp only [Except.map] at h
        cases h
        intro e he
        rcases List.mem_cons.mp he with rfl | he
        · rfl
        · exact ih es' hrest e he

theorem exceptBind_ok {ε α β : Type _} (a : α) (f : α → Except ε β) :
    (Except.ok a >>= f) = f a := rfl

theorem exceptBind_error {ε α β : Type _} (msg : ε) (f : α → Except ε β) :
    ((Except.error msg : Except ε α) >>= f) = .error msg := rfl

theorem parseStreams_ok_of_wf (ss : List RawStream)
    (h : ∀ s ∈ ss, ∀ p ∈ s.values?.getD [], (parseInt? p.1).isSome) :
    parseStreams ss =
      .ok (ss.flatMap (fun s =>
        (s.values?.getD []).map
          (fun p => mkEntry ((parseInt? p.1).getD 0) p.2 (s.labels?.getD [])))) := by
  induction ss with
  | nil => rfl
  | cons s rest ih =>
    have hs : parseStream s =
        .ok ((s.values?.getD []).map
          (fun p => mkEntry ((parseInt? p.1).getD 0) p.2 (s.labels?.getD []))) :=
      parseValues_ok_of_wf _ _ (h s (by simp))
    have hrest := ih (fun s' hs' => h s' (by simp [hs']))
    simp [parseStreams, hs, hrest, exceptBind_ok]

theorem parseStreams_wf_of_ok (ss : List RawStream) (es : List LogEntry)
    (h : parseStreams ss = .ok es) :
    ∀ s ∈ ss, ∀ p ∈ s.values?.getD [], (parseInt? p.1).isSome := by
  induction ss generalizing es with
  | nil => simp
  | cons s rest ih =>
    intro s' hs' q hq
    cases hhead : parseStream s with
    | error msg => simp [parseStreams, hhead, exceptBind_error] at h
    | ok es1 =>
      cases hrest : parseStreams rest with
      | error msg => simp [parseStreams, hhead, hrest, exceptBind_ok, exceptBind_error] at h
      | ok es2 =>
        rcases List.mem_cons.mp hs' with rfl | hs'
        · exact parseValues_wf_of_ok _ _ _ hhead q hq
        · exact ih es2 hrest s' hs' q hq

/-! ## Round-trip of the intended escaping -/

theorem readQuoted_escapeChars (v rest : List Char) :
    readQuoted (escapeChars v ++ '"' :: rest) = some (v, rest) := by
  unfold readQuoted
  induction v with
  | nil => simp [escapeChars, readQuotedAux]
  | cons c cs ih =>
    by_cases h : c = '\\' ∨ c = '"'
    · simp only [escapeChars, if_pos h, List.cons_append]
      simp [readQuotedAux, ih]
    · simp only [escapeChars, if_neg h, List.cons_append]
      push_neg at h
      simp [readQuotedAux, h.1, h.2, ih]

/-! ## Claim theorems -/

/-- C1: the claim says the query construction of `get_error_summary`,
`get_pod_restarts` and `search_logs` escapes backslash and double-quote
characters of the interpolated value so that the embedded value round-trips
and cannot terminate the quoted literal early. The code performs no escaping:
for the namespace `a"b` each builder embeds the raw text, a LogQL reader of
the resulting query sees the label value terminate after `a`, and the
remaining conjunct shows the escaping the specification demands would indeed
round-trip any value — so the contract is satisfiable and the code simply
omits it. -/
theorem claim_C1_escaping_missing :
    errorSummaryQuery "a\"b" =
      "\x7bnamespace=\"a\"b\"\x7d |= \"ERROR\" or |= \"PANIC\" or |= \"FATAL\"" ∧
    selectorValue (errorSummaryQuery "a\"b") = some "a" ∧
    selectorValue (podRestartsQuery "a\"b") = some "a" ∧
    selectorValue (searchQuery "a\"b" "x") = some "a" ∧
    lineFilterValue (searchQuery "" "a\"b") = some "a" ∧
    ("a" : String) ≠ "a\"b" ∧
    (∀ v rest : List Char, readQuoted (escapeChars v ++ '"' :: rest) = some (v, rest)) := by
  refine ⟨by decide, by decide, by decide, by decide, by decide, by decide, ?_⟩
  exact readQuoted_escapeChars

/-- C10: every invocation of the `get_pod_logs` tool with an initialized
client raises `AttributeError` before any query is issued, because both
branches resolve `loki._escape_logql_string` first and the `LokiClient`
class defines no such method. -/
theorem claim_C10_get_pod_logs_attribute_error (pod_name ns : String) :
    get_pod_logs_run pod_name ns =
      (.error (.attributeError "_escape_logql_string"), []) ∧
    "_escape_logql_string" ∉ lokiClientMethods := by
  have hres : resolveAttr "_escape_logql_string" =
      .error (.attributeError "_escape_logql_string") := by decide
  exact ⟨by rw [get_pod_logs_run, hres], by decide⟩

/-! ## Fixtures for witnesses -/

/-- A well-formed three-stream response: two values, an empty value list, and
a stream with no label object. -/
def respWf : RawResp :=
  ⟨some ⟨some
    [⟨some [("pod_name", "a")], some [("1000000000", "one"), ("2500000000", "two")]⟩,
     ⟨some [("pod_name", "b")], some []⟩,
     ⟨none, some [("3000000000", "three")]⟩]⟩⟩

/-- A response whose single value pair carries a non-numeric timestamp. -/
def respBad : RawResp :=
  ⟨some ⟨some [⟨some [("pod_name", "a")], some [("bad", "boom")]⟩]⟩⟩

/-- C2: for a well-formed response, `parse_log_entries` flattens the streams
in order, attaching each stream's label set to each of its value pairs,
converting the nanosecond timestamp by dividing by 10^9, and the output
length is the sum of the per-stream value-list lengths. -/
theorem claim_C2_parse_flattening (r : RawResp)
    (h : ∀ s ∈ streamsOf r, ∀ p ∈ s.values?.getD [], (parseInt? p.1).isSome) :
    parse_log_entries r =
      .ok ((streamsOf r).flatMap (fun s =>
        (s.values?.getD []).map (fun p =>
          { timestamp := (((parseInt? p.1).getD 0 : Int) : ℚ) / 1000000000
            message := p.2
            labels := s.labels?.getD [] }))) ∧
    (∀ es, parse_log_entries r = .ok es →
      es.length = ((streamsOf r).map (fun s => (s.values?.getD []).length)).sum) := by
  have h1 := parseStreams_ok_of_wf (streamsOf r) h
  constructor
  · rw [parse_log_entries, h1]
    rfl
  · intro es hes
    rw [parse_log_entries, h1] at hes
    injection hes with h2
    subst h2
    simp only [List.length_flatMap, Function.comp_def, List.length_map]

/-- Witness for C2 at `respWf`: three entries, stream order, labels attached,
timestamps divided by 10^9, length 2 + 0 + 1. -/
theorem claim_C2_parse_flattening_witness :
    parse_log_entries respWf =
      .ok [⟨((1000000000 : Int) : ℚ) / 1000000000, "one", [("pod_name", "a")]⟩,
           ⟨((2500000000 : Int) : ℚ) / 1000000000, "two", [("pod_name", "a")]⟩,
           ⟨((3000000000 : Int) : ℚ) / 1000000000, "three", []⟩] ∧
    ((streamsOf respWf).map (fun s => (s.values?.getD []).length)).sum = 3 := by
  have h := claim_C2_parse_flattening respWf (by decide)
  refine ⟨?_, by decide⟩
  rw [h.1]
  rfl

/-- C8: a malformed (non-numeric) timestamp anywhere in the response makes
`parse_log_entries` fail with an error and no partial result, and all three
analyzers propagate exactly that error to the caller. -/
theorem claim_C8_error_propagation (r : RawResp)
    (h : ∃ s ∈ streamsOf r, ∃ p ∈ s.values?.getD [], parseInt? p.1 = none) :
    (∃ msg, parse_log_entries r = .error msg) ∧
    (∀ msg, parse_log_entries r = .error msg →
      errorSummaryRun r = .error msg ∧
      podRestartsRun r = .error msg ∧
      ∀ pattern, searchLogsRun pattern r = .error msg) := by
  constructor
  · cases hp : parse_log_entries r with
    | ok es =>
      exfalso
      rcases h with ⟨s, hs, p, hps, hbad⟩
      have hws := parseStreams_wf_of_ok (streamsOf r) es hp s hs p hps
      rw [hbad] at hws
      simp at hws
    | error msg => exact ⟨msg, rfl⟩
  · intro msg hmsg
    refine ⟨?_, ?_, fun pattern => ?_⟩ <;>
      simp [errorSummaryRun, podRestartsRun, searchLogsRun, hmsg, Except.map]

/-- Witness for C8 at `respBad`: the parse error text is exactly what the
analyzers return. -/
theorem claim_C8_error_propagation_witness :
    (∃ msg, parse_log_entries respBad = .error msg) ∧
    errorSummaryRun respBad = .error "invalid literal for int(): bad" ∧
    podRestartsRun respBad = .error "invalid literal for int(): bad" ∧
    searchLogsRun "x" respBad = .error "invalid literal for int(): bad" := by
  have h := claim_C8_error_propagation respBad
    ⟨⟨some [("pod_name", "a")], some [("bad", "boom")]⟩, by decide,
      ("bad", "boom"), by decide, by decide⟩
  have hmsg : parse_log_entries respBad = .error "invalid literal for int(): bad" := by
    decide
  have h2 := h.2 _ hmsg
  exact ⟨h.1, h2.1, h2.2.1, h2.2.2 "x"⟩

/-- C9: missing nested fields resolve to defined defaults: a missing `data`
or `result` field yields an empty entry list, a missing `stream` field
yields an empty label set on every parsed entry, an absent `pod_name` label
resolves to `"unknown"` in all three analyzers, and an empty (or absent)
value list contributes zero entries without error. -/
theorem claim_C9_missing_field_defaults :
    parse_log_entries ⟨none⟩ = .ok [] ∧
    parse_log_entries ⟨some ⟨none⟩⟩ = .ok [] ∧
    (∀ s : RawStream, s.labels? = none →
      ∀ es, parseStream s = .ok es → ∀ e ∈ es, e.labels = []) ∧
    (∀ e : LogEntry, e.labels.lookup "pod_name" = none →
      podOf e = "unknown" ∧
      (errorSummaryOf [e]).affected_pods = ["unknown"] ∧
      (podRestartsOf [e]).restart_reasons = [("unknown", truncStr 200 e.message)] ∧
      (searchLogsOf "q" [e]).logs_by_pod =
        [("unknown", [(e.timestamp, truncStr 300 e.message)])]) ∧
    (∀ s : RawStream, s.values? = some [] → parseStream s = .ok []) ∧
    (∀ s : RawStream, s.values? = none → parseStream s = .ok []) := by
  refine ⟨by decide, by decide, ?_, ?_, ?_, ?_⟩
  · intro s hs es hes e he
    have hl := parseValues_labels (s.labels?.getD []) (s.values?.getD []) es hes e he
    rw [hs] at hl
    exact hl
  · intro e he
    have hpod : podOf e = "unknown" := by simp [podOf, getLabel, he]
    refine ⟨hpod, ?_, ?_, ?_⟩
    · simp [errorSummaryOf, esStep, hpod]
    · simp [podRestartsOf, prStep, hpod, List.lookup]
    · simp [searchLogsOf, addToGroup, searchItem, hpod]
  · intro s hs
    rw [parseStream, hs]
    rfl
  · intro s hs
    rw [parseStream, hs]
    rfl

/-- Witness for C9: a labelless stream parses to entries with empty labels,
an entry without a `pod_name` label is attributed to pod `"unknown"` by the
analyzers, and an empty value list yields zero entries. -/
theorem claim_C9_missing_field_defaults_witness :
    (∀ e ∈ [mkEntry 0 "m" []], e.labels = ([] : LabelSet)) ∧
    podOf ⟨0, "hello", [("app", "x")]⟩ = "unknown" ∧
    (errorSummaryOf [⟨0, "hello", [("app", "x")]⟩]).affected_pods = ["unknown"] ∧
    parseStream ⟨none, some []⟩ = .ok [] := by
  have h3 := claim_C9_missing_field_defaults.2.2.1 ⟨none, some [("0", "m")]⟩ rfl
    [mkEntry 0 "m" []] rfl
  have h4 := claim_C9_missing_field_defaults.2.2.2.1 ⟨0, "hello", [("app", "x")]⟩
    (by decide)
  have h5 := claim_C9_missing_field_defaults.2.2.2.2.1 ⟨none, some []⟩ rfl
  exact ⟨h3, h4.1, h4.2.1, h5⟩

/-- Fixture for C3: the specification's two-entry error example. -/
def exC3 : List LogEntry :=
  [⟨0, "ERROR: disk full", [("pod_name", "a")]⟩,
   ⟨0, "FATAL: oom", [("pod_name", "b")]⟩]

/-- C3: `get_error_summary` counts every parsed entry in `total_errors`, and
in the breakdown each of `ERROR`/`PANIC`/`FATAL` is counted once per entry
whose message contains it as a substring (an entry can increment several
counters); the breakdown is emitted in descending-count order; on the
specification's example the totals are 2, `[ERROR 1, FATAL 1]` and pods
`a`, `b`. -/
theorem claim_C3_error_summary (entries : List LogEntry) :
    (errorSummaryOf entries).total_errors = entries.length ∧
    (∀ tok ∈ (["ERROR", "PANIC", "FATAL"] : List String),
      keyCount (errorSummaryOf entries).error_breakdown tok =
        (entries.filter (fun e => msgContains e.message tok)).length) ∧
    (errorSummaryOf entries).error_breakdown.Pairwise (fun a b => b.2 ≤ a.2) ∧
    (errorSummaryOf exC3).total_errors = 2 ∧
    (errorSummaryOf exC3).error_breakdown = [("ERROR", 1), ("FATAL", 1)] ∧
    (∀ p, p ∈ (errorSummaryOf exC3).affected_pods ↔ (p = "a" ∨ p = "b")) := by
  refine ⟨rfl, ?_, mostCommon_sorted _, by decide, by decide, ?_⟩
  · intro tok htok
    have h1 : (errorSummaryOf entries).error_breakdown =
        mostCommon ((entries.foldl esStep ⟨[], [], []⟩).error_types) := rfl
    rw [h1, keyCount_mostCommon, keyCount_esFold entries ⟨[], [], []⟩ tok htok]
    simp [keyCount]
  · intro p
    have hpods : (errorSummaryOf exC3).affected_pods = ["a", "b"] := by decide
    rw [hpods]
    simp

/-- Witness for C3 at the specification's example. -/
theorem claim_C3_error_summary_witness :
    keyCount (errorSummaryOf exC3).error_breakdown "ERROR" =
      (exC3.filter (fun e => msgContains e.message "ERROR")).length ∧
    ("a" ∈ (errorSummaryOf exC3).affected_pods ↔ (("a" : String) = "a" ∨ ("a" : String) = "b")) :=
  ⟨(claim_C3_error_summary exC3).2.1 "ERROR" (by decide),
   (claim_C3_error_summary exC3).2.2.2.2.2 "a"⟩

/-- Fixture for C4: three entries from pod `x`, each with a
`CrashLoopBackOff` message. -/
def exC4 : List LogEntry :=
  [⟨0, "pod x CrashLoopBackOff one", [("pod_name", "x")]⟩,
   ⟨0, "pod x CrashLoopBackOff two", [("pod_name", "x")]⟩,
   ⟨0, "pod x CrashLoopBackOff three", [("pod_name", "x")]⟩]

/-- C4: `get_pod_restarts` keeps, for each pod, the first-seen message
(truncated to 200 characters) as the reason — later entries never overwrite
it; the per-pod counter counts that pod's entries; the returned pod table is
at most 10 rows, sorted by descending count, and dominates every pod it
excludes; on three `CrashLoopBackOff` entries from pod `x` the count is 3
and the reason is the first message. -/
theorem claim_C4_pod_restarts (entries : List LogEntry) :
    (∀ p, (podRestartsOf entries).restart_reasons.lookup p =
      ((entries.filter (fun e => podOf e = p)).head?).map
        (fun e => truncStr 200 e.message)) ∧
    (∀ p, keyCount (entries.foldl prStep ⟨[], []⟩).restarts_by_pod p =
      (entries.filter (fun e => podOf e = p)).length) ∧
    (podRestartsOf entries).affected_pods.length ≤ 10 ∧
    (podRestartsOf entries).affected_pods.Pairwise (fun a b => b.2 ≤ a.2) ∧
    (∀ a ∈ (podRestartsOf entries).affected_pods,
      ∀ b ∈ (mostCommon (entries.foldl prStep ⟨[], []⟩).restarts_by_pod).drop 10,
        b.2 ≤ a.2) ∧
    (podRestartsOf exC4).affected_pods = [("x", 3)] ∧
    (podRestartsOf exC4).restart_reasons.lookup "x" =
      some "pod x CrashLoopBackOff one" := by
  refine ⟨?_, ?_, ?_, ?_, ?_, by decide, by decide⟩
  · intro p
    have h := reasons_prFold entries ⟨[], []⟩ p
    simpa [List.lookup] using h
  · intro p
    have h := counts_prFold entries ⟨[], []⟩ p
    simpa [keyCount] using h
  · exact List.length_take_le _ _
  · exact (mostCommon_sorted _).sublist (List.take_sublist _ _)
  · intro a ha b hb
    have hs := mostCommon_sorted (entries.foldl prStep ⟨[], []⟩).restarts_by_pod
    rw [← List.take_append_drop 10
      (mostCommon (entries.foldl prStep ⟨[], []⟩).restarts_by_pod)] at hs
    exact (List.pairwise_append.mp hs).2.2 a ha b hb

/-- Witness for C4 at `exC4`. -/
theorem claim_C4_pod_restarts_witness :
    (podRestartsOf exC4).restart_reasons.lookup "x" =
      ((exC4.filter (fun e => podOf e = "x")).head?).map
        (fun e => truncStr 200 e.message) ∧
    (∀ b ∈ (mostCommon (exC4.foldl prStep ⟨[], []⟩).restarts_by_pod).drop 10,
      b.2 ≤ ("x", 3).2) :=
  ⟨(claim_C4_pod_restarts exC4).1 "x",
   (claim_C4_pod_restarts exC4).2.2.2.2.1 ("x", 3) (by decide)⟩

/-- C5: `search_logs` reports the full parsed-entry count as
`total_matches`, groups entries by pod label (defaulting to `"unknown"`)
preserving first-seen pod order, and keeps each group's messages in parsed
order truncated to 300 characters. -/
theorem claim_C5_search_grouping (pattern : String) (entries : List LogEntry) :
    (searchLogsOf pattern entries).total_matches = entries.length ∧
    (searchLogsOf pattern entries).query = pattern ∧
    (searchLogsOf pattern entries).logs_by_pod.map Prod.fst = firstSeenPods entries ∧
    (∀ p, (searchLogsOf pattern entries).logs_by_pod.lookup p =
      if searchItems entries p = [] then none else some (searchItems entries p)) := by
  refine ⟨rfl, rfl, ?_, ?_⟩
  · have h := keys_searchFold entries []
    simpa [firstSeenPods] using h
  · intro p
    have h := lookup_searchFold entries [] p
    simpa [List.lookup] using h

/-! ## Helper lemmas: truncation lengths and group-item bounds -/

theorem truncStr_length (n : Nat) (s : String) :
    (truncStr n s).length = min n s.length := by
  show (s.data.take n).length = min n s.data.length
  exact List.length_take n s.data

theorem items_addToGroup {P : ℚ × String → Prop} (k : String) (v : ℚ × String)
    (l : List (String × List (ℚ × String)))
    (hl : ∀ g ∈ l, ∀ item ∈ g.2, P item) (hv : P v) :
    ∀ g ∈ addToGroup k v l, ∀ item ∈ g.2, P item := by
  induction l with
  | nil =>
    intro g hg item hit
    simp only [addToGroup, List.mem_singleton] at hg
    subst hg
    simp only [List.mem_singleton] at hit
    subst hit
    exact hv
  | cons q rest ih =>
    obtain ⟨k', vs⟩ := q
    have hrest : ∀ g ∈ rest, ∀ item ∈ g.2, P item := fun g hg => hl g (by simp [hg])
    by_cases h : k' = k
    · have hadd : addToGroup k v ((k', vs) :: rest) = (k, vs ++ [v]) :: rest := by
        simp [addToGroup, h]
      intro g hg item hit
      rw [hadd, List.mem_cons] at hg
      rcases hg with rfl | hg
      · rcases List.mem_append.mp hit with hit | hit
        · exact hl (k', vs) (by simp) item hit
        · rw [List.mem_singleton] at hit
          subst hit
          exact hv
      · exact hrest g hg item hit
    · have hadd : addToGroup k v ((k', vs) :: rest) = (k', vs) :: addToGroup k v rest := by
        simp [addToGroup, h]
      intro g hg item hit
      rw [hadd, List.mem_cons] at hg
      rcases hg with rfl | hg
      · exact hl (k', vs) (by simp) item hit
      · exact ih hrest g hg item hit

theorem items_searchFold (entries : List LogEntry)
    (acc : List (String × List (ℚ × String)))
    (hacc : ∀ g ∈ acc, ∀ item ∈ g.2, item.2.length ≤ 300) :
    ∀ g ∈ entries.foldl (fun acc e => addToGroup (podOf e) (searchItem e) acc) acc,
      ∀ item ∈ g.2, item.2.length ≤ 300 := by
  induction entries generalizing acc with
  | nil => simpa using hacc
  | cons e rest ih =>
    simp only [List.foldl_cons]
    refine ih (addToGroup (podOf e) (searchItem e) acc) ?_
    refine items_addToGroup (podOf e) (searchItem e) acc hacc ?_
    have := truncStr_length 300 e.message
    simp only [searchItem]
    omega

/-- Fixture for C6: one entry whose message is 250 characters long. -/
def exC6 : List LogEntry :=
  [⟨0, String.mk (List.replicate 250 'z'), []⟩]

/-- C6: `get_error_summary`'s sample list is the messages of the first at
most 10 entries in encounter order (each truncated to 200 characters), and
the 200/300-character truncations produce strings of length exactly
`min limit length` — a message longer than the limit is cut to exactly the
limit; every message kept in a `search_logs` group is within the
300-character limit. -/
theorem claim_C6_samples_truncation (entries : List LogEntry) :
    (errorSummaryOf entries).sample_errors =
      (entries.take 10).map (fun e => truncStr 200 e.message) ∧
    (∀ s : String, (truncStr 200 s).length = min 200 s.length) ∧
    (∀ s : String, (truncStr 300 s).length = min 300 s.length) ∧
    (∀ pattern es, ∀ g ∈ (searchLogsOf pattern es).logs_by_pod,
      ∀ item ∈ g.2, item.2.length ≤ 300) := by
  refine ⟨?_, truncStr_length 200, truncStr_length 300, ?_⟩
  · have h := msgs_esFold entries ⟨[], [], []⟩
    simpa [List.map_take] using h
  · intro pattern es g hg item hit
    exact items_searchFold es [] (by simp) g hg item hit

/-- Witness for C6: a 250-character message is cut to exactly 200
characters in the sample list, and a search group item observes the
300-character bound. -/
theorem claim_C6_samples_truncation_witness :
    (errorSummaryOf exC6).sample_errors =
      (exC6.take 10).map (fun e => truncStr 200 e.message) ∧
    (truncStr 200 (String.mk (List.replicate 250 'z'))).length =
      min 200 (String.mk (List.replicate 250 'z')).length ∧
    (∀ item ∈ (("unknown", [((0 : ℚ), truncStr 300 "hi")]) :
        String × List (ℚ × String)).2, item.2.length ≤ 300) :=
  ⟨(claim_C6_samples_truncation exC6).1,
   (claim_C6_samples_truncation exC6).2.1 (String.mk (List.replicate 250 'z')),
   (claim_C6_samples_truncation exC6).2.2.2 "q" [⟨0, "hi", []⟩]
     ("unknown", [((0 : ℚ), truncStr 300 "hi")])
     (by decide)⟩

/-- C7 counterexample: the claim as stated (the start/end parameters are the
instants' integer-nanosecond representation) fails on any instant with a
fractional second. For `start` 1.5 seconds after the epoch the exact
nanosecond value is 1 500 000 000, but the code sends
`int(start.timestamp()) * 10^9 = 10^9`. -/
theorem claim_C7_ns_conversion_counterexample :
    (query_range_params "q" (some (3 / 2)) (some 2) 100 0).start = 1000000000 ∧
    ((3 / 2 : ℚ) * 1000000000) = 1500000000 ∧
    ((query_range_params "q" (some (3 / 2)) (some 2) 100 0).start : ℚ) ≠
      (3 / 2 : ℚ) * 1000000000 := by
  have h1 : pyInt (3 / 2 : ℚ) = 1 := by
    rw [pyInt, if_pos (by norm_num)]
    norm_num
  have h2 : (query_range_params "q" (some (3 / 2)) (some 2) 100 0).start = 1000000000 := by
    simp [query_range_params, h1]
  refine ⟨h2, by norm_num, ?_⟩
  rw [h2]
  norm_num

/-- C7 (amended): `query_range` sends `start`/`end` as the whole-second part
of each instant converted to integer nanoseconds since the epoch
(`int(t.timestamp()) * 10^9`, so sub-second precision is truncated and the
sent value is within one second below the exact nanosecond instant), passes
`query` and `limit` through, and defaults `end = now`,
`start = now - 1 hour` when omitted. -/
theorem claim_C7_ns_conversion (q : String) (s e now : ℚ) (lim : Nat)
    (hs : 0 ≤ s) (he : 0 ≤ e) :
    (query_range_params q (some s) (some e) lim now).query = q ∧
    (query_range_params q (some s) (some e) lim now).limit = lim ∧
    (query_range_params q (some s) (some e) lim now).start = ⌊s⌋ * 1000000000 ∧
    (query_range_params q (some s) (some e) lim now).end_ = ⌊e⌋ * 1000000000 ∧
    ((query_range_params q (some s) (some e) lim now).start : ℚ) ≤ s * 1000000000 ∧
    s * 1000000000 - 1000000000 <
      ((query_range_params q (some s) (some e) lim now).start : ℚ) ∧
    query_range_params q none none lim now =
      query_range_params q (some (now - 3600)) (some now) lim now := by
  have hstart : (query_range_params q (some s) (some e) lim now).start =
      ⌊s⌋ * 1000000000 := by
    simp [query_range_params, pyInt, hs]
  have hend : (query_range_params q (some s) (some e) lim now).end_ =
      ⌊e⌋ * 1000000000 := by
    simp [query_range_params, pyInt, he]
  have hle : (⌊s⌋ : ℚ) ≤ s := Int.floor_le s
  have hlt : s < ⌊s⌋ + 1 := Int.lt_floor_add_one s
  refine ⟨rfl, rfl, hstart, hend, ?_, ?_, rfl⟩
  · rw [hstart]
    push_cast
    linarith
  · rw [hstart]
    push_cast
    linarith

/-- Witness for C7 (amended) at `start = 3/2`, `end = 2`. -/
theorem claim_C7_ns_conversion_witness :
    (query_range_params "q" (some (3 / 2)) (some 2) 100 0).start =
      ⌊(3 / 2 : ℚ)⌋ * 1000000000 ∧
    ((query_range_params "q" (some (3 / 2)) (some 2) 100 0).start : ℚ) ≤
      (3 / 2 : ℚ) * 1000000000 := by
  have h := claim_C7_ns_conversion "q" (3 / 2) 2 0 100 (by norm_num) (by norm_num)
  exact ⟨h.2.2.1, h.2.2.2.2.1⟩

end LokiMCP
